import Mathlib

/-!
Verification of the colored Game-of-Life grid engine (`Board` in `src/game.py`).

The engine is embedded shallowly:
* a cell color is a triple of rationals (Python's true division `/` on channel
  totals is modelled exactly by rational division);
* the grid is a list of rows, a row a list of colors, mirroring the Python
  list-of-lists `self._board`;
* randomness (`random.randint` draws) is passed in explicitly as data, so each
  theorem quantifies over the possible draws;
* Python indexing that can raise `IndexError` is modelled by `Option`-returning
  access (`none` models the raised exception).
-/

namespace Life

/-- A cell color: an RGB triple. Channels are rationals so that the averaged
colors produced by `count_neighbors` (Python true division) are exact. -/
abbrev Color := ℚ × ℚ × ℚ

/-- The dead/empty sentinel `(0, 0, 0)`. -/
def deadColor : Color := (0, 0, 0)

/-- A grid: list of rows of colors, mirroring Python's list-of-lists. -/
abbrev Grid := List (List Color)

/-- The global constant `SIZE = 20` from `game.py`. -/
def SIZE : ℕ := 20

/-- `Board.__init__(size)`: a `size × size` grid of dead cells
(`self._board` after the construction loops). -/
def initBoard (size : ℕ) : Grid :=
  List.replicate size (List.replicate size deadColor)

/-- Read a cell. In-range reads agree with Python's `self._board[r][c]`;
out-of-range reads default to the dead color (every use below is guarded by
the same bounds checks the source performs). -/
def cellAt (g : Grid) (r c : ℕ) : Color :=
  (g.getD r []).getD c deadColor

/-- Write a cell (total version; all uses are bounds-guarded). -/
def setCell (g : Grid) (r c : ℕ) (v : Color) : Grid :=
  g.set r ((g.getD r []).set c v)

/-- Write a cell, modelling Python's `self._board[r][c] = v`: `none` models
the `IndexError` raised when the indices are out of range. -/
def setCellOpt (g : Grid) (r c : ℕ) (v : Color) : Option Grid :=
  match g[r]? with
  | none => none
  | some row => if c < row.length then some (g.set r (row.set c v)) else none

/-- Well-formedness: the grid is `size × size`. -/
def wfGrid (size : ℕ) (g : Grid) : Prop :=
  g.length = size ∧ ∀ row ∈ g, row.length = size

instance (size : ℕ) (g : Grid) : Decidable (wfGrid size g) := by
  unfold wfGrid; infer_instance

/-- The loop bounds `range(-1, 2)` of `count_neighbors`. -/
def offsets : List ℤ := [-1, 0, 1]

/-- The Moore-neighborhood offsets visited by the double loop of
`count_neighbors`, with the `i == 0 and j == 0` center skipped by `continue`. -/
def mooreOffsets : List (ℤ × ℤ) :=
  (offsets.flatMap fun i => offsets.map fun j => (i, j)).filter
    fun p => !(decide (p.1 = 0) && decide (p.2 = 0))

/-- The bounds test `x in range(0, size)` of `count_neighbors`. -/
def inRangeZ (size : ℕ) (x : ℤ) : Bool :=
  decide (0 ≤ x) && decide (x < (size : ℤ))

/-- The colors of the live (non-sentinel) in-bounds Moore neighbors of
`(row, col)` in `prior`, in the visit order of `count_neighbors`'s loops.
`num_neighbors` is the length of this list and the channel totals are its
channel sums. -/
def liveNeighbors (size : ℕ) (prior : Grid) (row col : ℕ) : List Color :=
  (mooreOffsets.filterMap fun p =>
    if inRangeZ size ((row : ℤ) + p.1) && inRangeZ size ((col : ℤ) + p.2) then
      some (cellAt prior ((row : ℤ) + p.1).toNat ((col : ℤ) + p.2).toNat)
    else none).filter fun c => decide (c ≠ deadColor)

/-- `Board.count_neighbors(row, col)`: the pair `(num_neighbors, average_color)`.
With no live neighbor the average is the dead color; otherwise each channel is
the channel total divided (true division) by `num_neighbors`. -/
def count_neighbors (size : ℕ) (prior : Grid) (row col : ℕ) : ℕ × Color :=
  let lns := liveNeighbors size prior row col
  let num_neighbors := lns.length
  if num_neighbors = 0 then
    (num_neighbors, deadColor)
  else
    (num_neighbors,
      ((lns.map fun c => c.1).sum / (num_neighbors : ℚ),
       (lns.map fun c => c.2.1).sum / (num_neighbors : ℚ),
       (lns.map fun c => c.2.2).sum / (num_neighbors : ℚ)))

/-- The value the rule pass of `Board.update` writes at `(row, col)`, when it
writes: `some` on the three explicit branches, `none` when no branch fires
(the implicit survive-unchanged case leaves the board entry alone). -/
def writeVal (size : ℕ) (prior : Grid) (row col : ℕ) : Option Color :=
  if cellAt prior row col = deadColor ∧ (count_neighbors size prior row col).1 = 3 then
    some (count_neighbors size prior row col).2
  else if 3 < (count_neighbors size prior row col).1 then some deadColor
  else if (count_neighbors size prior row col).1 < 2 then some deadColor
  else none

/-- One iteration of the cell loop of `Board.update`: write the rule value at
`rc` into the board, or leave the board unchanged on the implicit branch. -/
def updateBody (size : ℕ) (prior : Grid) (board : Grid) (rc : ℕ × ℕ) : Grid :=
  match writeVal size prior rc.1 rc.2 with
  | some v => setCell board rc.1 rc.2 v
  | none => board

/-- The row-major cell enumeration of the nested `for row`/`for col` loops. -/
def cellsRowMajor (size : ℕ) : List (ℕ × ℕ) :=
  (List.range size).flatMap fun r => (List.range size).map fun c => (r, c)

/-- The full rule pass of `Board.update`: fold the cell loop over the board,
reading only the `prior` snapshot. At loop entry `board = prior` (the snapshot
was just deep-copied from the board). -/
def rulePass (size : ℕ) (prior board : Grid) : Grid :=
  (cellsRowMajor size).foldl (updateBody size prior) board

/-- The new value the rule assigns to a cell, as a pure function of the
`prior` snapshot (the implicit branch keeps the prior value, since the board
equals the snapshot when the loop starts and each cell is written at most
once, at its own iteration). -/
def cellStep (size : ℕ) (prior : Grid) (row col : ℕ) : Color :=
  if cellAt prior row col = deadColor ∧ (count_neighbors size prior row col).1 = 3 then
    (count_neighbors size prior row col).2
  else if 3 < (count_neighbors size prior row col).1 then deadColor
  else if (count_neighbors size prior row col).1 < 2 then deadColor
  else cellAt prior row col

/-- The random draws one call of `Board.update` makes, in order:
`mutation = random.randint(0, 100)`, and (used only when `mutation == 42`)
`rand_row, rand_col = random.randint(0, SIZE - 1)` twice and the three channel
draws `random.randint(0, 225)` forming the mutation color. -/
structure Draws where
  mutation : ℕ
  rand_row : ℕ
  rand_col : ℕ
  rand_color : Color

/-- `Board.update()`: snapshot the board into `prior` (in the pure model, the
single binding of `prior` is the one deep copy), run the rule pass, then apply
the mutation step when the draw equals 42. The mutation write indexes the
board with `rand_row`/`rand_col`, drawn from `[0, SIZE-1]` with the *global*
`SIZE`; `none` models the `IndexError` this raises when the board is smaller. -/
def update (size : ℕ) (g : Grid) (d : Draws) : Option Grid :=
  let prior := g
  let board := rulePass size prior g
  if d.mutation = 42 then
    setCellOpt board d.rand_row d.rand_col d.rand_color
  else
    some board

/-- `Board.change_color(row, col)` with the three channel draws
`random.randint(0, 225)` passed explicitly: write the drawn color at the cell. -/
def change_color (g : Grid) (row col : ℕ) (r gr b : ℕ) : Grid :=
  setCell g row col ((r : ℚ), (gr : ℚ), (b : ℚ))

/-- Spec-side description of the cells `count_neighbors` is claimed to count:
the positions of the `size × size` grid, other than `(row, col)` itself, at
row and column distance at most 1 (Moore neighborhood clipped to the grid, no
wraparound), holding a non-sentinel color in `prior`. -/
def specLiveNbrs (size : ℕ) (prior : Grid) (row col : ℕ) : Finset (ℕ × ℕ) :=
  (Finset.range size ×ˢ Finset.range size).filter fun q =>
    q ≠ (row, col) ∧ ((q.1 : ℤ) - row).natAbs ≤ 1 ∧ ((q.2 : ℤ) - col).natAbs ≤ 1 ∧
      cellAt prior q.1 q.2 ≠ deadColor

/-- Every channel of every cell of the grid is nonnegative (true of every
reachable grid: cells are dead, `randint(0,225)` draws, or averages of such). -/
def NonnegGrid (g : Grid) : Prop :=
  ∀ row ∈ g, ∀ c ∈ row, 0 ≤ c.1 ∧ 0 ≤ c.2.1 ∧ 0 ≤ c.2.2

instance (g : Grid) : Decidable (NonnegGrid g) := by
  unfold NonnegGrid; infer_instance

/-! ### A reference/heap model of the Python object semantics

`get_board` returns `self._board` itself — the Python list object, not a copy.
To state aliasing claims we model the heap explicitly: grids live in a store,
a `Board` holds references into it, and `get_board` returns the reference. -/

/-- The heap: grid objects addressed by allocation index. -/
structure PyHeap where
  store : List Grid

/-- Dereference a grid object. -/
def readRef (s : PyHeap) (ref : ℕ) : Grid :=
  s.store.getD ref []

/-- Mutate the grid object at `ref` in place (as Python's list assignment
`obj[r][c] = v` mutates the object every reference to it sees). -/
def writeRef (s : PyHeap) (ref : ℕ) (g : Grid) : PyHeap :=
  ⟨s.store.set ref g⟩

/-- Allocate a fresh grid object and return its reference. -/
def allocRef (s : PyHeap) (g : Grid) : PyHeap × ℕ :=
  (⟨s.store ++ [g]⟩, s.store.length)

/-- A `Board` object: its size and the references held by `self._board` and
`self._prior`. -/
structure BoardObj where
  size : ℕ
  boardRef : ℕ
  priorRef : ℕ

/-- `Board.__init__(size)` in the heap model: build the all-dead grid, then
`copy.deepcopy` allocates a second, distinct object for `self._prior`. -/
def mkBoard (s : PyHeap) (size : ℕ) : PyHeap × BoardObj :=
  let (s1, bref) := allocRef s (initBoard size)
  let (s2, pref) := allocRef s1 (initBoard size)
  (s2, ⟨size, bref, pref⟩)

/-- `Board.get_board()`: `return self._board` returns the board object itself,
i.e. the reference, not a copy. -/
def get_board (b : BoardObj) : ℕ :=
  b.boardRef

/-- `Board.change_color(row, col)` in the heap model: mutate the grid object
`self._board` refers to, in place. -/
def change_colorH (s : PyHeap) (b : BoardObj) (row col r gr bl : ℕ) : PyHeap :=
  writeRef s b.boardRef (change_color (readRef s b.boardRef) row col r gr bl)

/-- The test an offset `p` of the `count_neighbors` loop passes when it is
counted: the neighbor position is inside the grid and holds a non-sentinel
color in `prior`. -/
def offLive (size : ℕ) (prior : Grid) (row col : ℕ) (p : ℤ × ℤ) : Bool :=
  inRangeZ size ((row : ℤ) + p.1) && inRangeZ size ((col : ℤ) + p.2) &&
    decide (cellAt prior ((row : ℤ) + p.1).toNat ((col : ℤ) + p.2).toNat ≠ deadColor)

/-- A 3×3 test grid: top row live with colors `(1,2,3)`, `(4,5,6)`, `(7,8,9)`,
everything else dead. -/
def testGrid3 : Grid :=
  [[(1, 2, 3), (4, 5, 6), (7, 8, 9)],
   [deadColor, deadColor, deadColor],
   [deadColor, deadColor, deadColor]]

/-- A 2×2 test grid with three live cells; every cell is live after the rule
pass (the corner is born with 3 neighbors, the rest survive with 2). -/
def liveGrid2 : Grid :=
  [[(9, 9, 9), (9, 9, 9)],
   [(9, 9, 9), deadColor]]

/-! ### Basic lemmas: cell reads and writes -/

lemma getD_set_self {α : Type*} (l : List α) (i : ℕ) (a d : α) (h : i < l.length) :
    (l.set i a).getD i d = a := by
  rw [List.getD_eq_getElem?_getD, List.getElem?_set_eq_of_lt a h, Option.getD_some]

lemma getD_set_ne {α : Type*} (l : List α) {i j : ℕ} (a d : α) (h : i ≠ j) :
    (l.set i a).getD j d = l.getD j d := by
  rw [List.getD_eq_getElem?_getD, List.getD_eq_getElem?_getD, List.getElem?_set_ne h]

lemma cellAt_setCell_self (g : Grid) (r c : ℕ) (v : Color)
    (hr : r < g.length) (hc : c < (g.getD r []).length) :
    cellAt (setCell g r c v) r c = v := by
  unfold cellAt setCell
  rw [getD_set_self _ _ _ _ hr]
  exact getD_set_self _ _ _ _ hc

lemma cellAt_setCell_ne (g : Grid) (r c : ℕ) (v : Color) (r' c' : ℕ)
    (h : r' ≠ r ∨ c' ≠ c) :
    cellAt (setCell g r c v) r' c' = cellAt g r' c' := by
  unfold cellAt setCell
  by_cases hrr : r' = r
  · subst hrr
    have hcc : c' ≠ c := h.resolve_left (fun hne => hne rfl)
    by_cases hlen : r' < g.length
    · rw [getD_set_self _ _ _ _ hlen, getD_set_ne _ _ _ (fun e => hcc e.symm)]
    · rw [List.set_eq_of_length_le (le_of_not_lt hlen)]
  · rw [getD_set_ne _ _ _ (fun e => hrr e.symm)]

lemma wfGrid_row_length {size : ℕ} {g : Grid} (h : wfGrid size g) {r : ℕ} (hr : r < size) :
    (g.getD r []).length = size := by
  have hr' : r < g.length := by rw [h.1]; exact hr
  rw [List.getD_eq_getElem g [] hr']
  exact h.2 _ (List.getElem_mem hr')

lemma wfGrid_setCell {size : ℕ} {g : Grid} (h : wfGrid size g) (r c : ℕ) (v : Color) :
    wfGrid size (setCell g r c v) := by
  obtain ⟨hlen, hrow⟩ := h
  by_cases hr : r < g.length
  · refine ⟨by simp [setCell, hlen], ?_⟩
    intro row hmem
    rcases List.mem_or_eq_of_mem_set hmem with hm | he
    · exact hrow _ hm
    · subst he
      rw [List.length_set]
      exact hrow _ (by rw [List.getD_eq_getElem g [] hr]; exact List.getElem_mem hr)
  · unfold setCell
    rw [List.set_eq_of_length_le (le_of_not_lt hr)]
    exact ⟨hlen, hrow⟩

lemma grid_ext {size : ℕ} {g₁ g₂ : Grid} (h₁ : wfGrid size g₁) (h₂ : wfGrid size g₂)
    (h : ∀ r c, r < size → c < size → cellAt g₁ r c = cellAt g₂ r c) : g₁ = g₂ := by
  apply List.ext_getElem (by rw [h₁.1, h₂.1])
  intro r hr1 hr2
  have hrow1 : (g₁[r]).length = size := h₁.2 _ (List.getElem_mem hr1)
  have hrow2 : (g₂[r]).length = size := h₂.2 _ (List.getElem_mem hr2)
  apply List.ext_getElem (by rw [hrow1, hrow2])
  intro c hc1 hc2
  have hrs : r < size := by rw [← h₁.1]; exact hr1
  have hcs : c < size := by rw [← hrow1]; exact hc1
  have hcell := h r c hrs hcs
  unfold cellAt at hcell
  rw [List.getD_eq_getElem g₁ [] hr1, List.getD_eq_getElem g₂ [] hr2,
    List.getD_eq_getElem _ deadColor hc1, List.getD_eq_getElem _ deadColor hc2] at hcell
  exact hcell

/-! ### The rule pass as a pointwise function of the snapshot -/

lemma wfGrid_updateBody {size : ℕ} (prior : Grid) {g : Grid} (h : wfGrid size g) (rc : ℕ × ℕ) :
    wfGrid size (updateBody size prior g rc) := by
  cases hw : writeVal size prior rc.1 rc.2 with
  | none => simpa [updateBody, hw] using h
  | some v => simpa [updateBody, hw] using wfGrid_setCell h rc.1 rc.2 v

lemma wfGrid_updateBody_apply {size : ℕ} {prior g : Grid} (h : wfGrid size g) (rc : ℕ × ℕ) :
    wfGrid size (updateBody size prior g rc) :=
  wfGrid_updateBody prior h rc

lemma wfGrid_foldl {size : ℕ} {prior : Grid} (l : List (ℕ × ℕ)) {g : Grid}
    (h : wfGrid size g) : wfGrid size (l.foldl (updateBody size prior) g) := by
  induction l generalizing g with
  | nil => exact h
  | cons rc t ih => exact ih (wfGrid_updateBody prior h rc)

lemma cellAt_updateBody_ne (size : ℕ) (prior g : Grid) (rc : ℕ × ℕ) (r c : ℕ)
    (h : (r, c) ≠ rc ∨ writeVal size prior r c = none) :
    cellAt (updateBody size prior g rc) r c = cellAt g r c := by
  cases hw : writeVal size prior rc.1 rc.2 with
  | none => simp [updateBody, hw]
  | some v =>
    simp only [updateBody, hw]
    apply cellAt_setCell_ne
    have hne : (r, c) ≠ rc := by
      rcases h with h | h
      · exact h
      · intro he
        rw [← he] at hw
        rw [h] at hw
        exact Option.noConfusion hw
    rcases rc with ⟨a, b⟩
    by_cases hra : r = a
    · refine Or.inr fun hcb => hne ?_
      rw [hra, hcb]
    · exact Or.inl hra

lemma cellAt_updateBody_self (size : ℕ) (prior g : Grid) (hg : wfGrid size g)
    {r c : ℕ} (hr : r < size) (hc : c < size) {v : Color}
    (hw : writeVal size prior r c = some v) :
    cellAt (updateBody size prior g (r, c)) r c = v := by
  simp only [updateBody, hw]
  exact cellAt_setCell_self _ _ _ _ (by rw [hg.1]; exact hr)
    (by rw [wfGrid_row_length hg hr]; exact hc)

lemma cellAt_foldl_updateBody (size : ℕ) (prior : Grid) (l : List (ℕ × ℕ)) (g : Grid)
    (hg : wfGrid size g) {r c : ℕ} (hr : r < size) (hc : c < size) :
    cellAt (l.foldl (updateBody size prior) g) r c =
      if (r, c) ∈ l then
        (match writeVal size prior r c with
         | some v => v
         | none => cellAt g r c)
      else cellAt g r c := by
  induction l generalizing g with
  | nil => simp
  | cons rc t ih =>
    rw [List.foldl_cons, ih _ (wfGrid_updateBody_apply hg rc)]
    by_cases hmem : (r, c) ∈ t
    · cases hw : writeVal size prior r c with
      | some v => simp [hmem, hw, List.mem_cons]
      | none =>
        simp only [hmem, if_true, hw, List.mem_cons, or_true]
        exact cellAt_updateBody_ne _ _ _ _ _ _ (Or.inr hw)
    · by_cases heq : (r, c) = rc
      · subst heq
        cases hw : writeVal size prior r c with
        | some v =>
          simp only [hmem, if_false, List.mem_cons, true_or, if_true, hw]
          exact cellAt_updateBody_self _ _ _ hg hr hc hw
        | none =>
          simp only [hmem, if_false, List.mem_cons, true_or, if_true, hw]
          exact cellAt_updateBody_ne _ _ _ _ _ _ (Or.inr hw)
      · have : ¬ ((r, c) ∈ rc :: t) := by
          simp only [List.mem_cons]
          rintro (h | h)
          · exact heq h
          · exact hmem h
        simp only [hmem, if_false, this]
        exact cellAt_updateBody_ne _ _ _ _ _ _ (Or.inl heq)

lemma mem_cellsRowMajor {size : ℕ} {rc : ℕ × ℕ} :
    rc ∈ cellsRowMajor size ↔ rc.1 < size ∧ rc.2 < size := by
  rcases rc with ⟨r, c⟩
  unfold cellsRowMajor
  simp only [List.mem_flatMap, List.mem_map, List.mem_range, Prod.mk.injEq]
  constructor
  · rintro ⟨a, ha, b, hb, he1, he2⟩
    exact ⟨he1 ▸ ha, he2 ▸ hb⟩
  · rintro ⟨hr, hc⟩
    exact ⟨r, hr, c, hc, rfl, rfl⟩

lemma writeVal_none_cellStep {size : ℕ} {prior : Grid} {row col : ℕ}
    (h : writeVal size prior row col = none) :
    cellStep size prior row col = cellAt prior row col := by
  unfold writeVal at h
  unfold cellStep
  split_ifs at h ⊢
  all_goals simp_all

lemma writeVal_some_cellStep {size : ℕ} {prior : Grid} {row col : ℕ} {v : Color}
    (h : writeVal size prior row col = some v) :
    cellStep size prior row col = v := by
  unfold writeVal at h
  unfold cellStep
  split_ifs at h ⊢
  all_goals simp_all

lemma cellAt_rulePass {size : ℕ} {g : Grid} (hg : wfGrid size g) {r c : ℕ}
    (hr : r < size) (hc : c < size) :
    cellAt (rulePass size g g) r c = cellStep size g r c := by
  unfold rulePass
  rw [cellAt_foldl_updateBody size g _ g hg hr hc,
    if_pos (mem_cellsRowMajor.mpr ⟨hr, hc⟩)]
  cases hw : writeVal size g r c with
  | none =>
    show cellAt g r c = cellStep size g r c
    exact (writeVal_none_cellStep hw).symm
  | some v =>
    show v = cellStep size g r c
    exact (writeVal_some_cellStep hw).symm

lemma count_neighbors_fst (size : ℕ) (prior : Grid) (row col : ℕ) :
    (count_neighbors size prior row col).1 = (liveNeighbors size prior row col).length := by
  unfold count_neighbors
  dsimp only
  split
  · rfl
  · rfl

/-! ### `count_neighbors` counts exactly the clipped live Moore neighborhood -/

lemma mooreOffsets_eq :
    mooreOffsets = [(-1, -1), (-1, 0), (-1, 1), (0, -1), (0, 1), (1, -1), (1, 0), (1, 1)] := by
  rfl

lemma mem_mooreOffsets_iff {p : ℤ × ℤ} :
    p ∈ mooreOffsets ↔ (p.1 ≠ 0 ∨ p.2 ≠ 0) ∧ p.1.natAbs ≤ 1 ∧ p.2.natAbs ≤ 1 := by
  rcases p with ⟨a, b⟩
  rw [mooreOffsets_eq]
  simp only [List.mem_cons, List.not_mem_nil, or_false, Prod.mk.injEq]
  constructor
  · intro h
    omega
  · intro h
    omega

lemma length_filter_filterMap {α β : Type*} (f : α → Option β) (q : β → Bool) (l : List α) :
    ((l.filterMap f).filter q).length =
      l.countP fun a => ((f a).map q).getD false := by
  induction l with
  | nil => rfl
  | cons a t ih =>
    rw [List.filterMap_cons]
    cases hf : f a with
    | none => simp [List.countP_cons, hf, ih]
    | some b =>
      rw [List.filter_cons]
      cases hq : q b
      · simp [List.countP_cons, hf, hq, ih]
      · simp [List.countP_cons, hf, hq, ih]

lemma liveNeighbors_length_countP (size : ℕ) (prior : Grid) (row col : ℕ) :
    (liveNeighbors size prior row col).length =
      mooreOffsets.countP (offLive size prior row col) := by
  unfold liveNeighbors
  rw [length_filter_filterMap]
  apply List.countP_congr
  intro p _
  unfold offLive
  by_cases h1 : inRangeZ size ((row : ℤ) + p.1) = true
  · by_cases h2 : inRangeZ size ((col : ℤ) + p.2) = true
    · simp [h1, h2]
    · simp [h1, h2]
  · simp [h1]

lemma countP_moore_eq_card (q : ℤ × ℤ → Bool) :
    mooreOffsets.countP q = (mooreOffsets.toFinset.filter fun p => q p = true).card := by
  rw [List.countP_eq_length_filter, ← List.toFinset_card_of_nodup
    (List.Nodup.filter _ (by decide : mooreOffsets.Nodup)), List.toFinset_filter]

lemma card_offLive_eq_card_specLiveNbrs (size : ℕ) (prior : Grid) (row col : ℕ) :
    (mooreOffsets.toFinset.filter fun p => offLive size prior row col p = true).card =
      (specLiveNbrs size prior row col).card := by
  apply Finset.card_bij'
    (fun p _ => (((row : ℤ) + p.1).toNat, ((col : ℤ) + p.2).toNat))
    (fun q _ => ((q.1 : ℤ) - row, (q.2 : ℤ) - col))
  · intro p hp
    rw [Finset.mem_filter, List.mem_toFinset, mem_mooreOffsets_iff] at hp
    obtain ⟨⟨hne, ha, hb⟩, hlive⟩ := hp
    simp only [offLive, inRangeZ, Bool.and_eq_true, decide_eq_true_eq] at hlive
    obtain ⟨⟨⟨hr0, hr1⟩, hc0, hc1⟩, hdead⟩ := hlive
    simp only [specLiveNbrs, Finset.mem_filter, Finset.mem_product, Finset.mem_range]
    refine ⟨⟨by omega, by omega⟩, ?_, by omega, by omega, hdead⟩
    intro he
    rw [Prod.ext_iff] at he
    obtain ⟨he1, he2⟩ := he
    simp only at he1 he2
    omega
  · intro q hq
    simp only [specLiveNbrs, Finset.mem_filter, Finset.mem_product, Finset.mem_range] at hq
    obtain ⟨⟨h1, h2⟩, hne, ha, hb, hdead⟩ := hq
    have hne' : ¬(q.1 = row ∧ q.2 = col) := by
      intro he
      exact hne (Prod.ext he.1 he.2)
    rw [Finset.mem_filter, List.mem_toFinset, mem_mooreOffsets_iff]
    refine ⟨⟨by omega, by omega, by omega⟩, ?_⟩
    simp only [offLive, inRangeZ, Bool.and_eq_true, decide_eq_true_eq]
    have e1 : (row : ℤ) + ((q.1 : ℤ) - row) = (q.1 : ℤ) := by ring
    have e2 : (col : ℤ) + ((q.2 : ℤ) - col) = (q.2 : ℤ) := by ring
    rw [e1, e2, Int.toNat_natCast, Int.toNat_natCast]
    exact ⟨⟨⟨by omega, by omega⟩, by omega, by omega⟩, hdead⟩
  · intro p hp
    rw [Finset.mem_filter, List.mem_toFinset, mem_mooreOffsets_iff] at hp
    obtain ⟨-, hlive⟩ := hp
    simp only [offLive, inRangeZ, Bool.and_eq_true, decide_eq_true_eq] at hlive
    obtain ⟨⟨⟨hr0, hr1⟩, hc0, hc1⟩, -⟩ := hlive
    rw [Prod.ext_iff]
    constructor
    · simp only
      omega
    · simp only
      omega
  · intro q hq
    simp only [specLiveNbrs, Finset.mem_filter, Finset.mem_product, Finset.mem_range] at hq
    rw [Prod.ext_iff]
    constructor
    · simp only
      omega
    · simp only
      omega

lemma count_neighbors_eq_card_specLiveNbrs (size : ℕ) (prior : Grid) (row col : ℕ) :
    (count_neighbors size prior row col).1 = (specLiveNbrs size prior row col).card := by
  rw [count_neighbors_fst, liveNeighbors_length_countP, countP_moore_eq_card,
    card_offLive_eq_card_specLiveNbrs]

lemma specLiveNbrs_corner_subset (size : ℕ) (prior : Grid) :
    specLiveNbrs size prior 0 0 ⊆ {(0, 1), (1, 0), (1, 1)} := by
  intro q hq
  simp only [specLiveNbrs, Finset.mem_filter, Finset.mem_product, Finset.mem_range] at hq
  obtain ⟨⟨h1, h2⟩, hne, ha, hb, -⟩ := hq
  have hne' : ¬(q.1 = 0 ∧ q.2 = 0) := by
    intro he
    exact hne (Prod.ext he.1 he.2)
  simp only [Finset.mem_insert, Finset.mem_singleton, Prod.ext_iff]
  omega

/-! ### Further helper lemmas -/

lemma rulePass_birth_eq {size : ℕ} {g : Grid} (hwf : wfGrid size g)
    {row col : ℕ} (hr : row < size) (hc : col < size)
    (hdead : cellAt g row col = deadColor)
    (h3 : (count_neighbors size g row col).1 = 3)
    {c1 c2 c3 : Color} (hl : liveNeighbors size g row col = [c1, c2, c3]) :
    cellAt (rulePass size g g) row col =
      ((c1.1 + c2.1 + c3.1) / 3,
       (c1.2.1 + c2.2.1 + c3.2.1) / 3,
       (c1.2.2 + c2.2.2 + c3.2.2) / 3) := by
  rw [cellAt_rulePass hwf hr hc]
  unfold cellStep
  rw [if_pos ⟨hdead, h3⟩]
  unfold count_neighbors
  dsimp only
  rw [hl]
  norm_num
  refine ⟨by ring, by ring, by ring⟩

lemma mem_liveNeighbors {size : ℕ} {prior : Grid} {row col : ℕ} {c : Color}
    (h : c ∈ liveNeighbors size prior row col) :
    c ≠ deadColor ∧ ∃ a b, c = cellAt prior a b := by
  unfold liveNeighbors at h
  rw [List.mem_filter] at h
  obtain ⟨hm, hq⟩ := h
  refine ⟨by simpa using hq, ?_⟩
  rw [List.mem_filterMap] at hm
  obtain ⟨p, -, hp⟩ := hm
  split_ifs at hp
  exact ⟨_, _, (Option.some_inj.mp hp).symm⟩

lemma pos_channel {c : Color} (hne : c ≠ deadColor)
    (hnn : 0 ≤ c.1 ∧ 0 ≤ c.2.1 ∧ 0 ≤ c.2.2) :
    0 < c.1 ∨ 0 < c.2.1 ∨ 0 < c.2.2 := by
  by_contra h
  push_neg at h
  obtain ⟨h1, h2, h3⟩ := h
  apply hne
  have e1 : c.1 = 0 := le_antisymm h1 hnn.1
  have e2 : c.2.1 = 0 := le_antisymm h2 hnn.2.1
  have e3 : c.2.2 = 0 := le_antisymm h3 hnn.2.2
  exact Prod.ext e1 (Prod.ext e2 e3)

lemma nonneg_cellAt {g : Grid} (h : NonnegGrid g) (r c : ℕ) :
    0 ≤ (cellAt g r c).1 ∧ 0 ≤ (cellAt g r c).2.1 ∧ 0 ≤ (cellAt g r c).2.2 := by
  unfold cellAt
  by_cases hr : r < g.length
  · rw [List.getD_eq_getElem g [] hr]
    by_cases hc : c < (g[r]).length
    · rw [List.getD_eq_getElem _ deadColor hc]
      exact h _ (List.getElem_mem hr) _ (List.getElem_mem hc)
    · rw [List.getD_eq_default _ deadColor (le_of_not_lt hc)]
      norm_num [deadColor]
  · rw [List.getD_eq_default _ [] (le_of_not_lt hr)]
    norm_num [deadColor, List.getD]

lemma setCellOpt_eq_setCell {size : ℕ} {g : Grid} (hg : wfGrid size g) {r c : ℕ}
    (hr : r < size) (hc : c < size) (v : Color) :
    setCellOpt g r c v = some (setCell g r c v) := by
  have hr' : r < g.length := by rw [hg.1]; exact hr
  have hrow : (g[r]).length = size := hg.2 _ (List.getElem_mem hr')
  unfold setCellOpt
  rw [List.getElem?_eq_getElem hr']
  dsimp only
  rw [if_pos (by rw [hrow]; exact hc)]
  unfold setCell
  rw [List.getD_eq_getElem g [] hr']

/-! ### The claims -/

/-- **C2.** One `update()` call snapshots the board once (in the model: the
single binding of the snapshot argument of `rulePass`), every cell of the new
board is `cellStep` of that snapshot alone, and folding the per-cell writes
over *any* enumeration of the grid cells — any list with the same members as
the row-major order the code uses — produces the same board, so update order
within a generation cannot affect the result. -/
theorem update_single_snapshot_order_independent (size : ℕ) (g : Grid)
    (hwf : wfGrid size g) :
    (∀ r c, r < size → c < size →
      cellAt (rulePass size g g) r c = cellStep size g r c) ∧
    (∀ l : List (ℕ × ℕ), (∀ rc, rc ∈ l ↔ rc ∈ cellsRowMajor size) →
      l.foldl (updateBody size g) g = rulePass size g g) := by
  refine ⟨fun r c hr hc => cellAt_rulePass hwf hr hc, ?_⟩
  intro l hl
  apply grid_ext (wfGrid_foldl l hwf) (wfGrid_foldl _ hwf)
  intro r c hr hc
  rw [cellAt_foldl_updateBody size g l g hwf hr hc,
    cellAt_foldl_updateBody size g _ g hwf hr hc]
  by_cases hmem : (r, c) ∈ cellsRowMajor size
  · rw [if_pos ((hl (r, c)).mpr hmem), if_pos hmem]
  · rw [if_neg (fun hin => hmem ((hl (r, c)).mp hin)), if_neg hmem]

/-- Witness for C2 at the all-dead 1×1 grid. -/
theorem update_single_snapshot_order_independent_witness :
    wfGrid 1 [[deadColor]] ∧
    ((∀ r c, r < 1 → c < 1 →
      cellAt (rulePass 1 [[deadColor]] [[deadColor]]) r c =
        cellStep 1 [[deadColor]] r c) ∧
    (∀ l : List (ℕ × ℕ), (∀ rc, rc ∈ l ↔ rc ∈ cellsRowMajor 1) →
      l.foldl (updateBody 1 [[deadColor]]) [[deadColor]] =
        rulePass 1 [[deadColor]] [[deadColor]])) :=
  ⟨by decide, update_single_snapshot_order_independent 1 [[deadColor]] (by decide)⟩

/-- **C3.** A cell dead in the snapshot with exactly 3 live Moore neighbors is
born with exactly the componentwise arithmetic mean — true division, no
rounding — of those 3 neighbors' colors. -/
theorem birth_mean_color (size : ℕ) (g : Grid) (hwf : wfGrid size g)
    (row col : ℕ) (hr : row < size) (hc : col < size)
    (hdead : cellAt g row col = deadColor)
    (h3 : (count_neighbors size g row col).1 = 3) :
    ∃ c1 c2 c3 : Color, liveNeighbors size g row col = [c1, c2, c3] ∧
      cellAt (rulePass size g g) row col =
        ((c1.1 + c2.1 + c3.1) / 3,
         (c1.2.1 + c2.2.1 + c3.2.1) / 3,
         (c1.2.2 + c2.2.2 + c3.2.2) / 3) := by
  have hlen : (liveNeighbors size g row col).length = 3 := by
    rw [← count_neighbors_fst]; exact h3
  obtain ⟨c1, c2, c3, hl⟩ := List.length_eq_three.mp hlen
  exact ⟨c1, c2, c3, hl, rulePass_birth_eq hwf hr hc hdead h3 hl⟩

/-- Witness for C3: in `testGrid3` the dead cell `(1,1)` has exactly 3 live
neighbors, `(1,2,3)`, `(4,5,6)`, `(7,8,9)`, and is born with `(4,5,6)`. -/
theorem birth_mean_color_witness :
    wfGrid 3 testGrid3 ∧ cellAt testGrid3 1 1 = deadColor ∧
    (count_neighbors 3 testGrid3 1 1).1 = 3 ∧
    (∃ c1 c2 c3 : Color, liveNeighbors 3 testGrid3 1 1 = [c1, c2, c3] ∧
      cellAt (rulePass 3 testGrid3 testGrid3) 1 1 =
        ((c1.1 + c2.1 + c3.1) / 3,
         (c1.2.1 + c2.2.1 + c3.2.1) / 3,
         (c1.2.2 + c2.2.2 + c3.2.2) / 3)) :=
  ⟨by decide, by decide, by decide,
    birth_mean_color 3 testGrid3 (by decide) 1 1 (by decide) (by decide)
      (by decide) (by decide)⟩

/-- **C4.** A cell live in the snapshot with exactly 2 or 3 live Moore
neighbors keeps its prior color unchanged through the rule pass (no branch of
`update` writes it, so it retains the value copied from the prior state). -/
theorem survive_color_unchanged (size : ℕ) (g : Grid) (hwf : wfGrid size g)
    (row col : ℕ) (hr : row < size) (hc : col < size)
    (halive : cellAt g row col ≠ deadColor)
    (h23 : (count_neighbors size g row col).1 = 2 ∨
      (count_neighbors size g row col).1 = 3) :
    cellAt (rulePass size g g) row col = cellAt g row col := by
  rw [cellAt_rulePass hwf hr hc]
  unfold cellStep
  rw [if_neg (fun h => halive h.1), if_neg (by omega), if_neg (by omega)]

/-- Witness for C4: in `testGrid3` the live cell `(0,1)` has exactly 2 live
neighbors and survives with its color `(4,5,6)` unchanged. -/
theorem survive_color_unchanged_witness :
    wfGrid 3 testGrid3 ∧ cellAt testGrid3 0 1 ≠ deadColor ∧
    ((count_neighbors 3 testGrid3 0 1).1 = 2 ∨
      (count_neighbors 3 testGrid3 0 1).1 = 3) ∧
    cellAt (rulePass 3 testGrid3 testGrid3) 0 1 = cellAt testGrid3 0 1 :=
  ⟨by decide, by decide, by decide,
    survive_color_unchanged 3 testGrid3 (by decide) 0 1 (by decide) (by decide)
      (by decide) (by decide)⟩

/-- **C5.** A cell live in the snapshot with 0, 1, or at least 4 live Moore
neighbors is the dead sentinel after the rule pass. -/
theorem die_under_over_population (size : ℕ) (g : Grid) (hwf : wfGrid size g)
    (row col : ℕ) (hr : row < size) (hc : col < size)
    (halive : cellAt g row col ≠ deadColor)
    (h : (count_neighbors size g row col).1 = 0 ∨
      (count_neighbors size g row col).1 = 1 ∨
      4 ≤ (count_neighbors size g row col).1) :
    cellAt (rulePass size g g) row col = deadColor := by
  rw [cellAt_rulePass hwf hr hc]
  unfold cellStep
  rw [if_neg (fun hh => halive hh.1)]
  by_cases h4 : 3 < (count_neighbors size g row col).1
  · rw [if_pos h4]
  · rw [if_neg h4, if_pos (by omega)]

/-- Witness for C5: in `testGrid3` the live corner `(0,0)` has exactly 1 live
neighbor and dies. -/
theorem die_under_over_population_witness :
    wfGrid 3 testGrid3 ∧ cellAt testGrid3 0 0 ≠ deadColor ∧
    ((count_neighbors 3 testGrid3 0 0).1 = 0 ∨
      (count_neighbors 3 testGrid3 0 0).1 = 1 ∨
      4 ≤ (count_neighbors 3 testGrid3 0 0).1) ∧
    cellAt (rulePass 3 testGrid3 testGrid3) 0 0 = deadColor :=
  ⟨by decide, by decide, by decide,
    die_under_over_population 3 testGrid3 (by decide) 0 0 (by decide) (by decide)
      (by decide) (by decide)⟩

/-- **C6.** `count_neighbors` counts exactly the cells of the Moore
neighborhood of `(row, col)` — row and column each within distance 1,
excluding the center — that lie inside the `size × size` grid (clipped at the
edges, no wraparound) and whose `prior` color is not the dead sentinel; in
particular at the corner `(0,0)` it never counts more than 3 neighbors. -/
theorem count_neighbors_moore_clipped (size : ℕ) (prior : Grid) (row col : ℕ) :
    (count_neighbors size prior row col).1 = (specLiveNbrs size prior row col).card ∧
    (count_neighbors size prior 0 0).1 ≤ 3 := by
  refine ⟨count_neighbors_eq_card_specLiveNbrs size prior row col, ?_⟩
  rw [count_neighbors_eq_card_specLiveNbrs]
  calc (specLiveNbrs size prior 0 0).card
      ≤ ({(0, 1), (1, 0), (1, 1)} : Finset (ℕ × ℕ)).card :=
        Finset.card_le_card (specLiveNbrs_corner_subset size prior)
    _ ≤ 3 := by decide

/-- **C7 (amended).** When the mutation draw equals 42 and the drawn cell
indices are in range of the board (as they always are for the default 20×20
board), the mutation step overwrites exactly the one drawn cell with the
freshly drawn color and alters no other cell's post-rule value; when the draw
differs from 42, the mutation step alters no cell at all. (Amended from the
claim as stated: the freshly drawn color is non-dead *unless all three channel
draws are 0*, which the support `[0,225]` of the draws permits.) -/
theorem mutation_frame (size : ℕ) (g : Grid) (d : Draws) (hwf : wfGrid size g)
    (hrow : d.rand_row < size) (hcol : d.rand_col < size) :
    (d.mutation = 42 →
      update size g d =
        some (setCell (rulePass size g g) d.rand_row d.rand_col d.rand_color) ∧
      cellAt (setCell (rulePass size g g) d.rand_row d.rand_col d.rand_color)
        d.rand_row d.rand_col = d.rand_color ∧
      ∀ r c, r ≠ d.rand_row ∨ c ≠ d.rand_col →
        cellAt (setCell (rulePass size g g) d.rand_row d.rand_col d.rand_color) r c =
          cellAt (rulePass size g g) r c) ∧
    (d.mutation ≠ 42 → update size g d = some (rulePass size g g)) := by
  have hb : wfGrid size (rulePass size g g) := wfGrid_foldl _ hwf
  constructor
  · intro h42
    refine ⟨?_, ?_, ?_⟩
    · unfold update
      rw [if_pos h42]
      exact setCellOpt_eq_setCell hb hrow hcol _
    · exact cellAt_setCell_self _ _ _ _ (by rw [hb.1]; exact hrow)
        (by rw [wfGrid_row_length hb hrow]; exact hcol)
    · intro r c hne
      exact cellAt_setCell_ne _ _ _ _ _ _ hne
  · intro hne
    unfold update
    rw [if_neg hne]

/-- Witness for the amended C7 on a 1×1 board with mutation draw 42. -/
theorem mutation_frame_witness :
    wfGrid 1 [[deadColor]] ∧ (0 : ℕ) < 1 ∧
    (((Draws.mk 42 0 0 (5, 6, 7)).mutation = 42 →
      update 1 [[deadColor]] ⟨42, 0, 0, (5, 6, 7)⟩ =
        some (setCell (rulePass 1 [[deadColor]] [[deadColor]]) 0 0 (5, 6, 7)) ∧
      cellAt (setCell (rulePass 1 [[deadColor]] [[deadColor]]) 0 0 (5, 6, 7)) 0 0 =
        (5, 6, 7) ∧
      ∀ r c, r ≠ 0 ∨ c ≠ 0 →
        cellAt (setCell (rulePass 1 [[deadColor]] [[deadColor]]) 0 0 (5, 6, 7)) r c =
          cellAt (rulePass 1 [[deadColor]] [[deadColor]]) r c) ∧
    ((Draws.mk 42 0 0 (5, 6, 7)).mutation ≠ 42 →
      update 1 [[deadColor]] ⟨42, 0, 0, (5, 6, 7)⟩ =
        some (rulePass 1 [[deadColor]] [[deadColor]]))) :=
  ⟨by decide, by decide,
    mutation_frame 1 [[deadColor]] ⟨42, 0, 0, (5, 6, 7)⟩ (by decide) (by decide) (by decide)⟩

/-- **C7 (counterexample to the claim as stated).** All three mutation channel
draws can be 0 (each is `random.randint(0, 225)`), in which case the mutation
overwrites the drawn cell with the dead sentinel, not a non-dead color: on
`liveGrid2` the post-rule value of cell `(0,0)` is the live `(9,9,9)`, but
after the mutation step with color draw `(0,0,0)` it reads back dead. -/
theorem mutation_can_write_dead :
    cellAt (rulePass 2 liveGrid2 liveGrid2) 0 0 = (9, 9, 9) ∧
    (update 2 liveGrid2 ⟨42, 0, 0, (0, 0, 0)⟩).map (fun b => cellAt b 0 0) =
      some deadColor := by decide

/-- **C8 (amended).** For in-range coordinates, `change_color` (toggle) writes
exactly the drawn color — channels drawn from `[0,225]` — at `(row, col)` and
leaves every other cell unchanged, regardless of the cell's previous state;
the written color is the dead sentinel exactly when all three channel draws
are 0 (possible, though with probability `(1/226)³`), and non-dead otherwise. -/
theorem change_color_frame (size : ℕ) (g : Grid) (hwf : wfGrid size g)
    (row col : ℕ) (hrow : row < size) (hcol : col < size)
    (r gr b : ℕ) (hr : r ≤ 225) (hgr : gr ≤ 225) (hb : b ≤ 225) :
    cellAt (change_color g row col r gr b) row col = ((r : ℚ), (gr : ℚ), (b : ℚ)) ∧
    (0 ≤ (r : ℚ) ∧ (r : ℚ) ≤ 225 ∧ 0 ≤ (gr : ℚ) ∧ (gr : ℚ) ≤ 225 ∧
      0 ≤ (b : ℚ) ∧ (b : ℚ) ≤ 225) ∧
    (((r : ℚ), (gr : ℚ), (b : ℚ)) = deadColor ↔ r = 0 ∧ gr = 0 ∧ b = 0) ∧
    ∀ r' c', r' ≠ row ∨ c' ≠ col →
      cellAt (change_color g row col r gr b) r' c' = cellAt g r' c' := by
  refine ⟨?_, ?_, ?_, ?_⟩
  · exact cellAt_setCell_self _ _ _ _ (by rw [hwf.1]; exact hrow)
      (by rw [wfGrid_row_length hwf hrow]; exact hcol)
  · refine ⟨by positivity, by exact_mod_cast hr, by positivity, by exact_mod_cast hgr,
      by positivity, by exact_mod_cast hb⟩
  · rw [deadColor, Prod.ext_iff, Prod.ext_iff]
    simp [Nat.cast_eq_zero, and_assoc]
  · intro r' c' hne
    exact cellAt_setCell_ne _ _ _ _ _ _ hne

/-- Witness for the amended C8 on `testGrid3` at the live cell `(0,1)`. -/
theorem change_color_frame_witness :
    wfGrid 3 testGrid3 ∧
    (cellAt (change_color testGrid3 0 1 10 20 30) 0 1 =
        ((10 : ℚ), (20 : ℚ), (30 : ℚ)) ∧
      (0 ≤ (10 : ℚ) ∧ (10 : ℚ) ≤ 225 ∧ 0 ≤ (20 : ℚ) ∧ (20 : ℚ) ≤ 225 ∧
        0 ≤ (30 : ℚ) ∧ (30 : ℚ) ≤ 225) ∧
      (((10 : ℚ), (20 : ℚ), (30 : ℚ)) = deadColor ↔ 10 = 0 ∧ 20 = 0 ∧ 30 = 0) ∧
      ∀ r' c', r' ≠ 0 ∨ c' ≠ 1 →
        cellAt (change_color testGrid3 0 1 10 20 30) r' c' = cellAt testGrid3 r' c') :=
  ⟨by decide,
    change_color_frame 3 testGrid3 (by decide) 0 1 (by decide) (by decide)
      10 20 30 (by decide) (by decide) (by decide)⟩

/-- **C8 (counterexample to the claim as stated).** The three channel draws of
`change_color` can all be 0, in which case the cell is set to the dead
sentinel: toggling the live `(1,1,1)` cell of a 1×1 board clears it,
contradicting "sets `(r,c)` to a non-dead color" and "an already-alive cell is
re-randomized, not cleared". -/
theorem change_color_can_clear :
    cellAt [[((1 : ℚ), (1 : ℚ), (1 : ℚ))]] 0 0 ≠ deadColor ∧
    cellAt (change_color [[((1 : ℚ), (1 : ℚ), (1 : ℚ))]] 0 0 0 0 0) 0 0 = deadColor := by
  decide

/-- **C9 (amended).** `get_board` returns `self._board` itself — the live grid
object, not a copy — so the returned view *aliases* the engine state: the grid
read through a previously returned `get_board` reference always equals the
engine's current grid (subsequent operations are visible through it), and
writing through the returned reference changes the engine's state. -/
theorem get_board_aliases (s : PyHeap) (b : BoardObj)
    (href : b.boardRef < s.store.length) :
    (∀ row col r gr bl,
      readRef (change_colorH s b row col r gr bl) (get_board b) =
        change_color (readRef s b.boardRef) row col r gr bl) ∧
    (∀ g' : Grid, readRef (writeRef s (get_board b) g') b.boardRef = g') := by
  constructor
  · intro row col r gr bl
    unfold change_colorH get_board writeRef readRef
    exact getD_set_self _ _ _ _ href
  · intro g'
    unfold get_board writeRef readRef
    exact getD_set_self _ _ _ _ href

/-- Witness for the amended C9 at a freshly constructed 1×1 board. -/
theorem get_board_aliases_witness :
    (mkBoard ⟨[]⟩ 1).2.boardRef < (mkBoard ⟨[]⟩ 1).1.store.length ∧
    ((∀ row col r gr bl,
      readRef (change_colorH (mkBoard ⟨[]⟩ 1).1 (mkBoard ⟨[]⟩ 1).2 row col r gr bl)
          (get_board (mkBoard ⟨[]⟩ 1).2) =
        change_color (readRef (mkBoard ⟨[]⟩ 1).1 (mkBoard ⟨[]⟩ 1).2.boardRef)
          row col r gr bl) ∧
    (∀ g' : Grid,
      readRef (writeRef (mkBoard ⟨[]⟩ 1).1 (get_board (mkBoard ⟨[]⟩ 1).2) g')
        (mkBoard ⟨[]⟩ 1).2.boardRef = g')) :=
  ⟨by decide, get_board_aliases (mkBoard ⟨[]⟩ 1).1 (mkBoard ⟨[]⟩ 1).2 (by decide)⟩

/-- **C9 (counterexample to the claim as stated).** `get_board` does not
return an independent snapshot: construct a 1×1 board, call `get_board`, then
call `change_color(0,0)` on the engine — the structure previously returned by
`get_board` now reads `[[(5,6,7)]]` instead of the all-dead grid it showed
when it was returned, so a subsequent engine operation changed an
already-returned "snapshot" (they alias). -/
theorem get_board_snapshot_mutates :
    readRef (mkBoard ⟨[]⟩ 1).1 (get_board (mkBoard ⟨[]⟩ 1).2) = [[deadColor]] ∧
    readRef (change_colorH (mkBoard ⟨[]⟩ 1).1 (mkBoard ⟨[]⟩ 1).2 0 0 5 6 7)
        (get_board (mkBoard ⟨[]⟩ 1).2) = [[((5 : ℚ), (6 : ℚ), (7 : ℚ))]] := by
  decide

/-- **C10.** On a grid whose channels are all nonnegative (true of every
reachable grid), a cell assigned by the birth branch — dead in the snapshot
with exactly 3 live neighbors — is never the dead sentinel: each counted
neighbor is non-sentinel with nonnegative channels, so at least one channel of
the componentwise mean is strictly positive. -/
theorem birth_not_dead (size : ℕ) (g : Grid) (hwf : wfGrid size g)
    (hnn : NonnegGrid g) (row col : ℕ) (hr : row < size) (hc : col < size)
    (hdead : cellAt g row col = deadColor)
    (h3 : (count_neighbors size g row col).1 = 3) :
    cellAt (rulePass size g g) row col ≠ deadColor := by
  have hlen : (liveNeighbors size g row col).length = 3 := by
    rw [← count_neighbors_fst]; exact h3
  obtain ⟨c1, c2, c3, hl⟩ := List.length_eq_three.mp hlen
  rw [rulePass_birth_eq hwf hr hc hdead h3 hl]
  have hm1 : c1 ∈ liveNeighbors size g row col := by rw [hl]; simp
  have hm2 : c2 ∈ liveNeighbors size g row col := by rw [hl]; simp
  have hm3 : c3 ∈ liveNeighbors size g row col := by rw [hl]; simp
  have nn : ∀ c : Color, c ∈ liveNeighbors size g row col →
      0 ≤ c.1 ∧ 0 ≤ c.2.1 ∧ 0 ≤ c.2.2 := by
    intro c hmem
    obtain ⟨-, a, b, he⟩ := mem_liveNeighbors hmem
    rw [he]
    exact nonneg_cellAt hnn a b
  obtain ⟨hne1, -⟩ := mem_liveNeighbors hm1
  obtain ⟨n11, n12, n13⟩ := nn c1 hm1
  obtain ⟨n21, n22, n23⟩ := nn c2 hm2
  obtain ⟨n31, n32, n33⟩ := nn c3 hm3
  intro he
  rw [deadColor, Prod.ext_iff, Prod.ext_iff] at he
  obtain ⟨e1, e2, e3⟩ := he
  simp only at e1 e2 e3
  rcases pos_channel hne1 ⟨n11, n12, n13⟩ with hp | hp | hp
  · have : (0 : ℚ) < (c1.1 + c2.1 + c3.1) / 3 := by positivity
    rw [e1] at this
    exact lt_irrefl 0 this
  · have : (0 : ℚ) < (c1.2.1 + c2.2.1 + c3.2.1) / 3 := by positivity
    rw [e2] at this
    exact lt_irrefl 0 this
  · have : (0 : ℚ) < (c1.2.2 + c2.2.2 + c3.2.2) / 3 := by positivity
    rw [e3] at this
    exact lt_irrefl 0 this

/-- Witness for C10: the dead cell `(1,1)` of `testGrid3` is born and is not
the dead sentinel. -/
theorem birth_not_dead_witness :
    wfGrid 3 testGrid3 ∧ NonnegGrid testGrid3 ∧
    cellAt testGrid3 1 1 = deadColor ∧ (count_neighbors 3 testGrid3 1 1).1 = 3 ∧
    cellAt (rulePass 3 testGrid3 testGrid3) 1 1 ≠ deadColor :=
  ⟨by decide, by decide, by decide, by decide,
    birth_not_dead 3 testGrid3 (by decide) (by decide) 1 1 (by decide) (by decide)
      (by decide) (by decide)⟩

/-- **C1 (the code violates it).** The mutation step of `update` draws its
cell indices with `random.randint(0, SIZE - 1)` using the *global* `SIZE = 20`
instead of `self.size`, so its indices are not drawn from `[0, N-1]`. On a
board constructed with `size = 5`, the in-support draw `rand_row = 19` makes
the mutation assignment index row 19 of a 5-row list, raising `IndexError`
(modelled by `none`) — contradicting both "indices drawn uniformly from
`[0,N-1]`" and "no error is raised". -/
theorem mutation_index_out_of_range :
    19 ≤ SIZE - 1 ∧ update 5 (initBoard 5) ⟨42, 19, 3, (7, 7, 7)⟩ = none := by
  decide

end Life
